import Mathlib

/-!
# Bounded dispatcher and strided trapezoid integration

A shallow embedding of `process.c`, `thread.c` and `processThread.c`:

* the trapezoid integrator (single pass and strided pooled worker),
* the pool reducer (fan-out / fan-in over `NUM_THREADS` workers),
* the process dispatcher `spawn_child` with its `SIGCHLD` handler, as a
  step function driven by scheduler events. `SIGCHLD` is a standard signal:
  it is pending or not, so exits that happen before the handler has run share
  one run of the handler; and `numChildren ++` is a load followed by a store.

Doubles are read as elements of an ordered field (exact arithmetic), the
maths library (`sin`, `exp`, `sqrt`, `M_PI`) is a parameter, and `size_t`
is a natural number taken modulo `2 ^ 64` where the code can overflow.
-/

namespace Trapezoid

/-- Modulus of `size_t` arithmetic on the 64-bit targets the code is built for. -/
def SIZE_MOD : Nat := 2 ^ 64

/-- The constant `NUM_FUNCS` of all three files. -/
abbrev NUM_FUNCS : Nat := 3

/-- The functions of `math.h` the program links against. -/
structure Libm (α : Type) where
  sin : α → α
  exp : α → α
  sqrt : α → α
  M_PI : α

section Integrands

variable {α : Type} [LinearOrderedField α]

/-- The integrand `gaussian`. -/
def gaussian (m : Libm α) (x : α) : α :=
  m.exp (-(x * x) / 2) / m.sqrt (2 * m.M_PI)

/-- The integrand `chargeDecay`. -/
def chargeDecay (m : Libm α) (x : α) : α :=
  if x < 0 then 0
  else if x < 1 then 1 - m.exp (-5 * x)
  else m.exp (-(x - 1))

/-- The table `FUNCS[NUM_FUNCS] = {&sin, &gaussian, &chargeDecay}`. -/
def FUNCS (m : Libm α) : Fin NUM_FUNCS → α → α :=
  ![m.sin, gaussian m, chargeDecay m]

/-- One iteration of the integration loop at index `i`:
`smallx = rangeStart + i*dx; bigx = rangeStart + (i+1)*dx;
area += dx * (func(smallx) + func(bigx)) / 2`.
Inside the loop `i < numSteps <= SIZE_MAX`, so `i + 1` does not wrap. -/
def trapBody (func : α → α) (rangeStart dx : α) (area : α) (i : Nat) : α :=
  let smallx := rangeStart + (i : α) * dx
  let bigx := rangeStart + ((i + 1 : Nat) : α) * dx
  area + dx * (func smallx + func bigx) / 2

end Integrands

/-- The loop `for (size_t i = start; i < numSteps; i += stride) acc = body acc i`
on 64-bit `size_t`: the increment is taken modulo `2 ^ 64`. Every evaluation of
the loop test costs one unit of fuel; `none` means the fuel ran out before the
test failed. -/
def sizeLoop {β : Type} (stride numSteps : Nat) (body : β → Nat → β) :
    Nat → Nat → β → Option β
  | 0, _, _ => none
  | fuel + 1, i, acc =>
    if i < numSteps then
      sizeLoop stride numSteps body fuel ((i + stride) % SIZE_MOD) (body acc i)
    else some acc

/-- The indices visited by `for (i = start; i < numSteps; i += P)` when the
indices are read as natural numbers (no wrap-around), in visiting order. -/
def stridedIndices (P : Nat) (hP : 0 < P) (numSteps i : Nat) : List Nat :=
  if i < numSteps then i :: stridedIndices P hP numSteps (i + P) else []
termination_by numSteps - i
decreasing_by omega

namespace Process

variable {α : Type} [LinearOrderedField α]

/-- The single-pass `integrateTrap` of `process.c`:
`for (size_t i = 0; i < numSteps; i++)` runs `i = 0, ..., numSteps - 1`
(no wrap-around is possible with stride one, see `sizeLoop_stride_one`). -/
def integrateTrap (func : α → α) (rangeStart rangeEnd : α) (numSteps : Nat) : α :=
  let rangeSize := rangeEnd - rangeStart
  let dx := rangeSize / (numSteps : α)
  (List.range numSteps).foldl (trapBody func rangeStart dx) 0

end Process

/-- The fields of `Worker` read by the pooled `integrateTrap`
(`total` and `lock` are the shared accumulator, handled by the reducer). -/
structure Worker (α : Type) where
  rangeStart : α
  rangeEnd : α
  i : Nat
  numSteps : Nat
  funcId : Fin NUM_FUNCS

namespace Pool

variable {α : Type} [LinearOrderedField α]

/-- The pooled `integrateTrap` of `thread.c` and `processThread.c`, with
`NUM_THREADS` as parameter: the value of `area` the worker adds to `*total`. -/
def integrateTrap (NUM_THREADS : Nat) (m : Libm α) (worker : Worker α) (fuel : Nat) :
    Option α :=
  let func := FUNCS m worker.funcId
  let rangeSize := worker.rangeEnd - worker.rangeStart
  let dx := rangeSize / (worker.numSteps : α)
  sizeLoop NUM_THREADS worker.numSteps (trapBody func worker.rangeStart dx) fuel worker.i 0

/-- The accumulator after the workers listed in `order` (their completion
order) have each run `(*worker->total) += area` under the lock, starting from
`total = 0`. A worker that never returns leaves the join waiting: `none`. -/
def reduce (NUM_THREADS : Nat) (m : Libm α) (rangeStart rangeEnd : α) (numSteps : Nat)
    (funcId : Fin NUM_FUNCS) (order : List Nat) (fuel : Nat) : Option α :=
  order.foldlM
    (fun total k =>
      (integrateTrap NUM_THREADS m ⟨rangeStart, rangeEnd, k, numSteps, funcId⟩ fuel).map
        (fun area => total + area))
    0

end Pool

namespace Thread

/-- The constant `NUM_THREADS` of `thread.c`. -/
abbrev NUM_THREADS : Nat := 16

end Thread

namespace ProcessThread

/-- The constant `NUM_THREADS` of `processThread.c`. -/
abbrev NUM_THREADS : Nat := 32

/-- The constant `MAX_CHILDREN` of `processThread.c`. -/
abbrev MAX_CHILDREN : Nat := 4

end ProcessThread

/-! ## The process dispatcher -/

/-- What one call `scanf("%lf %lf %zu %zu", start, end, numSteps, funcId)` left
behind: the number of converted tokens and the four variables. -/
structure ScanResult (α : Type) where
  numRead : Nat
  rangeStart : α
  rangeEnd : α
  numSteps : Nat
  funcId : Nat

/-- The return value of `getValidInput`:
`numRead == 4 && *end >= *start && *numSteps > 0 && *funcId < NUM_FUNCS`. -/
def getValidInput {α : Type} [LinearOrderedField α] (r : ScanResult α) : Bool :=
  r.numRead == 4 && decide (r.rangeEnd ≥ r.rangeStart) && decide (r.numSteps > 0)
    && decide (r.funcId < NUM_FUNCS)

/-- The value of `EXIT_FAILURE`. -/
abbrev EXIT_FAILURE : Nat := 1

/-- The statement of `spawn_child` the parent process is at. -/
inductive PC where
  /-- At `getValidInput(...)`, blocked reading the next request. -/
  | read
  /-- At the test of `while (numChildren > 0)` after an invalid read. -/
  | drainTest
  /-- Inside `wait(NULL)` of the draining loop. -/
  | drainWait
  /-- At `signal(SIGCHLD, sig_handler)`. -/
  | sigReg
  /-- At `child_pid = fork()`. -/
  | fork
  /-- At `numChildren ++`; the flag says whether `fork` returned a child pid
  (`true`) or a negative value (`false`). -/
  | inc (forked : Bool)
  /-- Inside `numChildren ++`: the value `loaded` was read from `numChildren`
  and `loaded + 1` is about to be written back. -/
  | incStore (forked : Bool) (loaded : Int)
  /-- At `if (child_pid < 0)`. -/
  | test (forked : Bool)
  /-- Parent code: at the test `numChildren >= MAX_CHILDREN`. -/
  | capTest
  /-- Parent code: inside `wait(NULL)` of the capacity wait. -/
  | capWait
  /-- The parent has called `exit(status)`. -/
  | exited (status : Nat)
  deriving DecidableEq

/-- The parent process and its children. -/
structure State where
  pc : PC
  /-- The global `static int numChildren`. -/
  numChildren : Int
  /-- Whether `sig_handler` is installed for `SIGCHLD`. -/
  handler : Bool
  /-- Whether a `SIGCHLD` is pending for the parent (one bit: standard signals
  are not queued). -/
  pending : Bool
  /-- Children that were forked and have not exited yet. -/
  running : Nat
  /-- Children that have exited and were not collected by `wait` yet. -/
  zombies : Nat
  /-- Number of children created by `fork` so far. -/
  forks : Nat
  deriving DecidableEq

/-- What differs between the two dispatchers: the ceiling, and whether the
capacity wait is a `while` (`process.c`) or a single `if` (`processThread.c`). -/
structure Config where
  MAX_CHILDREN : Nat
  recheck : Bool

/-- What the scheduler and the environment decide. -/
inductive Event (α : Type) where
  /-- The call of `getValidInput` returns, `scanf` having delivered `r`. -/
  | scan (r : ScanResult α)
  /-- The call `fork()` returns: a child pid (`true`) or `-1` (`false`). -/
  | forkReturns (forked : Bool)
  /-- The parent executes the statement it is at (for `wait(NULL)`: the call
  returns, which needs an exited uncollected child, or no child at all). -/
  | stmt
  /-- One running child exits and stays waitable; with `sig_handler` installed
  a `SIGCHLD` becomes pending for the parent (it merges with one that is
  pending already). -/
  | childExit
  /-- The pending `SIGCHLD` is delivered: the parent runs `sig_handler` once. -/
  | sigchld

/-- The state at the call of `spawn_child` in `main`. -/
def init : State :=
  { pc := PC.read, numChildren := 0, handler := false, pending := false, running := 0,
    zombies := 0, forks := 0 }

/-- The call `wait(NULL)` returning to statement `next`: it collects one exited
child; with no child at all it fails at once (`ECHILD`); with only running
children it blocks. -/
def waitReturn (s : State) (next : PC) : Option State :=
  if 0 < s.zombies then some { s with zombies := s.zombies - 1, pc := next }
  else if s.running = 0 then some { s with pc := next }
  else none

/-- One step of the parent running `spawn_child`, or of its surroundings: a
child exit, or the delivery of `SIGCHLD`, which runs `sig_handler`
(`numChildren --`) between two steps of the parent. -/
def step {α : Type} [LinearOrderedField α] (c : Config) (s : State) :
    Event α → Option State
  | Event.childExit =>
    match s.pc with
    | PC.exited _ => none
    | _ =>
      if 0 < s.running then
        some { s with
          running := s.running - 1
          zombies := s.zombies + 1
          pending := s.pending || s.handler }
      else none
  | Event.sigchld =>
    match s.pc with
    | PC.exited _ => none
    | _ =>
      if s.pending then
        some { s with numChildren := s.numChildren - 1, pending := false }
      else none
  | Event.scan r =>
    match s.pc with
    | PC.read =>
      if getValidInput r then some { s with pc := PC.sigReg }
      else some { s with pc := PC.drainTest }
    | _ => none
  | Event.forkReturns forked =>
    match s.pc with
    | PC.fork =>
      if forked then
        some { s with pc := PC.inc true, running := s.running + 1, forks := s.forks + 1 }
      else some { s with pc := PC.inc false }
    | _ => none
  | Event.stmt =>
    match s.pc with
    | PC.drainTest =>
      if s.numChildren > 0 then some { s with pc := PC.drainWait }
      else some { s with pc := PC.exited 0 }
    | PC.drainWait => waitReturn s PC.drainTest
    | PC.sigReg => some { s with handler := true, pc := PC.fork }
    | PC.inc forked => some { s with pc := PC.incStore forked s.numChildren }
    | PC.incStore forked loaded =>
      some { s with numChildren := loaded + 1, pc := PC.test forked }
    | PC.test forked =>
      if forked then some { s with pc := PC.capTest }
      else some { s with pc := PC.exited EXIT_FAILURE }
    | PC.capTest =>
      if s.numChildren ≥ (c.MAX_CHILDREN : Int) then some { s with pc := PC.capWait }
      else some { s with pc := PC.read }
    | PC.capWait => waitReturn s (if c.recheck then PC.capTest else PC.read)
    | _ => none

/-- Running a schedule from a state; `none` if some event is not enabled. -/
def run {α : Type} [LinearOrderedField α] (c : Config) (s : State) :
    List (Event α) → Option State
  | [] => some s
  | e :: es => (step c s e).bind (fun t => run c t es)

namespace Process

/-- The constant `MAX_CHILDREN` of `process.c`. -/
abbrev MAX_CHILDREN : Nat := 5

/-- The dispatcher of `process.c`: `while (numChildren >= MAX_CHILDREN) wait(NULL);`. -/
def config : Config := { MAX_CHILDREN := MAX_CHILDREN, recheck := true }

end Process

namespace ProcessThread

/-- The dispatcher of `processThread.c`: `if (numChildren >= MAX_CHILDREN) wait(NULL);`. -/
def config : Config := { MAX_CHILDREN := MAX_CHILDREN, recheck := false }

end ProcessThread

/-- A request that passes `getValidInput`: the line `0 1 10 0`. -/
def sampleRequest : ScanResult ℚ :=
  { numRead := 4, rangeStart := 0, rangeEnd := 1, numSteps := 10, funcId := 0 }

/-- The events of one dispatch in the parent in which nothing interferes:
valid read, `signal`, successful `fork`, the load and the store of
`numChildren ++`, the `child_pid` test and the capacity test. -/
def dispatchOnce : List (Event ℚ) :=
  [Event.scan sampleRequest, Event.stmt, Event.forkReturns true, Event.stmt, Event.stmt,
    Event.stmt, Event.stmt]

/-! ## Invariants, measures and sample inputs used in the statements -/

/-- The area of the trapezoid at index `i`: what one iteration adds. -/
def trapTerm {α : Type} [LinearOrderedField α] (func : α → α) (rangeStart dx : α)
    (i : Nat) : α :=
  dx * (func (rangeStart + (i : α) * dx) + func (rangeStart + ((i + 1 : Nat) : α) * dx)) / 2

/-- The line written by
`printf("The integral of function %zu in range %g to %g is %.10g\n", ...)`. -/
structure ResultLine (α : Type) where
  funcId : Nat
  rangeStart : α
  rangeEnd : α
  total : α

/-- The function `calculate_total` of `processThread.c`, which is also the body
of the `while` loop in `main` of `thread.c`: `total = 0`, one `pthread_create`
per worker, one `pthread_join` per worker, then the result line.
`created k` tells whether `pthread_create` succeeded for worker `k`; the code
discards the return value of `pthread_create` (and of `pthread_join`), so
nothing branches on it: a worker that was not created just never runs
`integrateTrap`. The created workers add their areas to `total`. -/
def Pool.calculate_total {α : Type} [LinearOrderedField α] (NUM_THREADS : Nat) (m : Libm α)
    (rangeStart rangeEnd : α) (numSteps : Nat) (funcId : Fin NUM_FUNCS)
    (created : Nat → Bool) (fuel : Nat) : Option (ResultLine α) :=
  (Pool.reduce NUM_THREADS m rangeStart rangeEnd numSteps funcId
      ((List.range NUM_THREADS).filter created) fuel).map
    (fun total => ⟨funcId.val, rangeStart, rangeEnd, total⟩)

/-- The function `main` of `thread.c` on a list of reads, each with the outcome
of its `pthread_create` calls (the end of the list is the end of the input,
where `scanf` converts nothing): the status passed to `exit` and the result
lines written. The only exit is `exit(0)` after the loop. -/
def Thread.main {α : Type} [LinearOrderedField α] (m : Libm α) (fuel : Nat) :
    List (ScanResult α × (Nat → Bool)) → Option (Nat × List (ResultLine α))
  | [] => some (0, [])
  | (r, created) :: rest =>
    if h : getValidInput r = true then
      (Pool.calculate_total Thread.NUM_THREADS m r.rangeStart r.rangeEnd r.numSteps
          ⟨r.funcId, by simp [getValidInput] at h; exact h.2⟩ created fuel).bind
        (fun line => (Thread.main m fuel rest).map (fun out => (out.1, line :: out.2)))
    else some (0, [])

/-- The child code of `spawn_child` in `processThread.c`:
`calculate_total(rangeStart, rangeEnd, numSteps, funcId); exit(0);`. -/
def ProcessThread.child {α : Type} [LinearOrderedField α] (m : Libm α)
    (rangeStart rangeEnd : α) (numSteps : Nat) (funcId : Fin NUM_FUNCS)
    (created : Nat → Bool) (fuel : Nat) : Option (Nat × List (ResultLine α)) :=
  (Pool.calculate_total ProcessThread.NUM_THREADS m rangeStart rangeEnd numSteps funcId
      created fuel).map (fun line => (0, [line]))

/-- The invariant behind the ceiling: the counter is at most the ceiling, and
strictly below it from the read up to the increment. -/
def capInv (c : Config) (s : State) : Prop :=
  s.numChildren ≤ (c.MAX_CHILDREN : Int) ∧
    match s.pc with
    | PC.read | PC.sigReg | PC.fork | PC.inc _ => s.numChildren < (c.MAX_CHILDREN : Int)
    | PC.incStore _ loaded => loaded < (c.MAX_CHILDREN : Int)
    | _ => True

/-- The states of the draining phase that started with `f` forks done: the
parent is in the draining loop, or has left it through `exit(0)` with
`numChildren <= 0`. -/
def drainInv (f : Nat) (t : State) : Prop :=
  t.forks = f ∧
    match t.pc with
    | PC.drainTest => True
    | PC.drainWait => True
    | PC.exited st => st = 0 ∧ t.numChildren ≤ 0
    | _ => False

/-- Whether the parent has called `exit`. -/
def isExited (s : State) : Bool :=
  match s.pc with
  | PC.exited _ => true
  | _ => false

/-- The parent in the draining loop with a counter that is one too high: no
child is left, running or waitable, and no signal is pending. -/
def overcounted (s : State) : Prop :=
  s.numChildren = 1 ∧ s.running = 0 ∧ s.zombies = 0 ∧ s.pending = false ∧
    (s.pc = PC.drainTest ∨ s.pc = PC.drainWait)

/-- A read of a line with only two tokens, `0 1`: two conversions done. -/
def shortRead : ScanResult ℚ :=
  { numRead := 2, rangeStart := 0, rangeEnd := 1, numSteps := 0, funcId := 0 }

/-- Two dispatches; both children exit before the parent has run `sig_handler`
for the first exit (one pending `SIGCHLD`, one run of the handler); a line with
only two tokens is read; the draining loop collects both children with
`wait(NULL)`. -/
def mergedExits : List (Event ℚ) :=
  dispatchOnce ++ dispatchOnce ++
    [Event.childExit, Event.childExit, Event.sigchld, Event.scan shortRead,
      Event.stmt, Event.stmt, Event.stmt, Event.stmt]

/-- The state `mergedExits` leads to: at the test of the draining loop with
`numChildren = 1` and no child left. -/
def spinning : State :=
  { pc := PC.drainTest, numChildren := 1, handler := true, pending := false, running := 0,
    zombies := 0, forks := 2 }

/-! ## Strided partition -/

theorem stridedIndices_mem (P : Nat) (hP : 0 < P) (numSteps : Nat) :
    ∀ (d i j : Nat), numSteps - i ≤ d →
      (j ∈ stridedIndices P hP numSteps i ↔ i ≤ j ∧ j < numSteps ∧ (j - i) % P = 0) := by
  intro d
  induction d with
  | zero =>
    intro i j h
    rw [stridedIndices]
    have : ¬ i < numSteps := by omega
    simp only [this, if_false, List.not_mem_nil, false_iff]
    omega
  | succ d ih =>
    intro i j h
    rw [stridedIndices]
    by_cases hi : i < numSteps
    · simp only [hi, if_true, List.mem_cons]
      rw [ih (i + P) j (by omega)]
      constructor
      · rintro (rfl | ⟨h1, h2, h3⟩)
        · simp [hi]
        · refine ⟨by omega, h2, ?_⟩
          have : j - i = (j - (i + P)) + P := by omega
          rw [this, Nat.add_mod_right]; exact h3
      · rintro ⟨h1, h2, h3⟩
        by_cases hji : j = i
        · exact Or.inl hji
        · right
          have hlt : i < j := by omega
          have hge : P ≤ j - i := by
            by_contra hc
            push_neg at hc
            rw [Nat.mod_eq_of_lt hc] at h3
            omega
          refine ⟨by omega, h2, ?_⟩
          have : j - i = (j - (i + P)) + P := by omega
          rw [this, Nat.add_mod_right] at h3; exact h3
    · simp only [hi, if_false, List.not_mem_nil, false_iff]
      omega

theorem stridedIndices_nodup (P : Nat) (hP : 0 < P) (numSteps : Nat) :
    ∀ (d i : Nat), numSteps - i ≤ d → (stridedIndices P hP numSteps i).Nodup := by
  intro d
  induction d with
  | zero =>
    intro i h
    rw [stridedIndices]
    have : ¬ i < numSteps := by omega
    simp [this]
  | succ d ih =>
    intro i h
    rw [stridedIndices]
    by_cases hi : i < numSteps
    · simp only [hi, if_true, List.nodup_cons]
      refine ⟨?_, ih (i + P) (by omega)⟩
      intro hmem
      have := (stridedIndices_mem P hP numSteps (numSteps - (i + P)) (i + P) i le_rfl).1 hmem
      omega
    · simp [hi]

theorem stridedIndices_owner (P : Nat) (k j : Nat) (hk : k < P) (hkj : k ≤ j)
    (h : (j - k) % P = 0) : k = j % P := by
  have hd : P ∣ j - k := Nat.dvd_of_mod_eq_zero h
  have hm : k ≡ j [MOD P] := (Nat.modEq_iff_dvd' hkj).2 hd
  have : k % P = j % P := hm
  rw [Nat.mod_eq_of_lt hk] at this
  exact this

theorem strided_flatMap_perm (P : Nat) (hP : 0 < P) (numSteps : Nat) :
    ((List.range P).flatMap (fun k => stridedIndices P hP numSteps k)).Perm
      (List.range numSteps) := by
  rw [List.perm_ext_iff_of_nodup _ (List.nodup_range numSteps)]
  · intro j
    simp only [List.mem_flatMap, List.mem_range]
    constructor
    · rintro ⟨k, _, hj⟩
      exact ((stridedIndices_mem P hP numSteps _ k j le_rfl).1 hj).2.1
    · intro hj
      refine ⟨j % P, Nat.mod_lt _ hP, ?_⟩
      rw [stridedIndices_mem P hP numSteps _ (j % P) j le_rfl]
      refine ⟨Nat.mod_le _ _, hj, ?_⟩
      have h1 : j - j % P = P * (j / P) := by
        have := Nat.mod_add_div j P
        omega
      rw [h1, Nat.mul_mod_right]
  · rw [List.nodup_flatMap]
    refine ⟨fun k _ => stridedIndices_nodup P hP numSteps _ k le_rfl, ?_⟩
    refine List.Pairwise.imp_of_mem ?_ (List.nodup_range P)
    intro a b ha hb hab
    rw [List.mem_range] at ha hb
    intro j hja hjb
    have h1 := (stridedIndices_mem P hP numSteps _ a j le_rfl).1 hja
    have h2 := (stridedIndices_mem P hP numSteps _ b j le_rfl).1 hjb
    have e1 := stridedIndices_owner P a j ha h1.1 h1.2.2
    have e2 := stridedIndices_owner P b j hb h2.1 h2.2.2
    exact hab (e1.trans e2.symm)

theorem step_capInv {α : Type} [LinearOrderedField α] (c : Config) (hc : c.recheck = true)
    (s t : State) (e : Event α) (h : step c s e = some t) (hI : capInv c s) :
    capInv c t := by
  obtain ⟨pc, n, hd, pd, r, z, f⟩ := s
  cases e <;> cases pc <;> simp only [step, waitReturn, capInv, hc] at h hI ⊢ <;>
    (try split at h) <;> (try split at h) <;>
    simp only [Option.some.injEq, reduceCtorEq] at h <;>
    (try subst h) <;> (try split) <;> simp_all <;> omega

theorem run_capInv {α : Type} [LinearOrderedField α] (c : Config) (hc : c.recheck = true)
    (es : List (Event α)) : ∀ (s t : State), run c s es = some t → capInv c s → capInv c t := by
  induction es with
  | nil =>
    intro s t h hI
    simp only [run, Option.some.injEq] at h
    exact h ▸ hI
  | cons e es ih =>
    intro s t h hI
    simp only [run] at h
    cases hs : step c s e with
    | none => simp [hs] at h
    | some u =>
      rw [hs] at h
      exact ih u t h (step_capInv c hc s u e hs hI)

/-- C3: in the dispatcher of `process.c` (ceiling `MAX_CHILDREN = 5`, capacity
wait in a `while`), in every state reachable under any sequence of requests,
`fork` results and child exits interleaved with the statements of
`spawn_child` (each child exit running `sig_handler` once), the parent has
`numChildren <= MAX_CHILDREN`. The bound also holds for the schedules in which
exits share a run of `sig_handler` or a run falls inside `numChildren ++`. -/
theorem process_numChildren_le_max {α : Type} [LinearOrderedField α]
    (es : List (Event α)) (s : State) (h : run Process.config init es = some s) :
    s.numChildren ≤ (Process.MAX_CHILDREN : Int) :=
  (run_capInv Process.config rfl es init s h (by simp [capInv, init, Process.config])).1

/-- Witness for C3: after five undisturbed dispatches the counter is at the
ceiling 5, and within the bound. -/
theorem process_numChildren_le_max_witness :
    run Process.config init
        (dispatchOnce ++ dispatchOnce ++ dispatchOnce ++ dispatchOnce ++ dispatchOnce)
      = some { pc := PC.capWait, numChildren := 5, handler := true, pending := false,
               running := 5, zombies := 0, forks := 5 }
    ∧ (5 : Int) ≤ (Process.MAX_CHILDREN : Int) :=
  ⟨by decide, process_numChildren_le_max
    (dispatchOnce ++ dispatchOnce ++ dispatchOnce ++ dispatchOnce ++ dispatchOnce)
    { pc := PC.capWait, numChildren := 5, handler := true, pending := false,
      running := 5, zombies := 0, forks := 5 } (by decide)⟩

/-- C4 (the code exceeds the ceiling): in the dispatcher of `processThread.c`
(ceiling 4, capacity wait a single `if`), six valid requests whose first child
exits before the fifth is forked drive the parent to `numChildren = 5`: the
first child's exit already decremented the counter, `wait(NULL)` at capacity
returns at once by collecting that child, and the next dispatch goes ahead. -/
theorem processThread_numChildren_exceeds_max :
    run ProcessThread.config init
        (dispatchOnce ++ [Event.childExit, Event.sigchld] ++ dispatchOnce ++ dispatchOnce
          ++ dispatchOnce ++ dispatchOnce ++ [Event.stmt]
          ++ [Event.scan sampleRequest, Event.stmt, Event.forkReturns true, Event.stmt,
              Event.stmt])
      = some { pc := PC.test true, numChildren := 5, handler := true, pending := false,
               running := 5, zombies := 0, forks := 6 }
    ∧ ((ProcessThread.MAX_CHILDREN : Int) < 5) := by
  decide

/-- C5 (the counter goes negative): in `process.c`, a child that exits after
`fork()` has returned and before the parent runs `numChildren ++` makes
`sig_handler` decrement the counter from 0 to -1. -/
theorem process_numChildren_negative :
    run Process.config init
        [Event.scan sampleRequest, Event.stmt, Event.forkReturns true, Event.childExit,
          Event.sigchld]
      = some { pc := PC.inc true, numChildren := -1, handler := true, pending := false,
               running := 0, zombies := 1, forks := 1 }
    ∧ ((-1 : Int) < 0) := by
  decide

/-- C7 (the counter is left incremented): in both dispatchers, when the first
`fork()` fails, the parent is at `fork` with `numChildren = 0`, then runs
`numChildren ++` before the test of `child_pid`, and exits with `EXIT_FAILURE`
and `numChildren = 1`. -/
theorem fork_failure_leaves_increment :
    (run Process.config init [Event.scan sampleRequest, Event.stmt]
        = some { pc := PC.fork, numChildren := 0, handler := true, pending := false,
                 running := 0, zombies := 0, forks := 0 }
      ∧ run Process.config init
          [Event.scan sampleRequest, Event.stmt, Event.forkReturns false, Event.stmt,
            Event.stmt, Event.stmt]
        = some { pc := PC.exited EXIT_FAILURE, numChildren := 1, handler := true,
                 pending := false, running := 0, zombies := 0, forks := 0 })
    ∧ (run ProcessThread.config init [Event.scan sampleRequest, Event.stmt]
        = some { pc := PC.fork, numChildren := 0, handler := true, pending := false,
                 running := 0, zombies := 0, forks := 0 }
      ∧ run ProcessThread.config init
          [Event.scan sampleRequest, Event.stmt, Event.forkReturns false, Event.stmt,
            Event.stmt, Event.stmt]
        = some { pc := PC.exited EXIT_FAILURE, numChildren := 1, handler := true,
                 pending := false, running := 0, zombies := 0, forks := 0 }) := by
  decide

/-! ## Draining after an invalid read -/

theorem step_drainInv {α : Type} [LinearOrderedField α] (c : Config) (f : Nat)
    (s t : State) (e : Event α) (h : step c s e = some t) (hI : drainInv f s) :
    drainInv f t := by
  obtain ⟨pc, n, hd, pd, r, z, f0⟩ := s
  cases e <;> cases pc <;> simp only [step, waitReturn, drainInv] at h hI ⊢ <;>
    (try split at h) <;> (try split at h) <;> (try split at h) <;>
    simp only [Option.some.injEq, reduceCtorEq] at h <;>
    (try subst h) <;> simp_all

theorem run_drainInv {α : Type} [LinearOrderedField α] (c : Config) (f : Nat)
    (es : List (Event α)) : ∀ (s t : State), run c s es = some t → drainInv f s →
      drainInv f t := by
  induction es with
  | nil =>
    intro s t h hI
    simp only [run, Option.some.injEq] at h
    exact h ▸ hI
  | cons e es ih =>
    intro s t h hI
    simp only [run] at h
    cases hs : step c s e with
    | none => simp [hs] at h
    | some u =>
      rw [hs] at h
      exact ih u t h (step_drainInv c f s u e hs hI)

/-- What does hold after an invalid read in `process.c` (not exactly four
tokens, or `end < start`, or `numSteps == 0`, or `funcId >= NUM_FUNCS`): the
parent enters the draining loop, no further `fork` happens, and if the parent
exits, it is with status 0 and `numChildren <= 0`. -/
theorem invalid_read_forks_nothing {α : Type} [LinearOrderedField α]
    (s : State) (hpc : s.pc = PC.read) (r : ScanResult α)
    (hr : r.numRead ≠ 4 ∨ r.rangeEnd < r.rangeStart ∨ r.numSteps = 0 ∨ NUM_FUNCS ≤ r.funcId) :
    ∃ d, step Process.config s (Event.scan r) = some d ∧ d.pc = PC.drainTest ∧
      ∀ (es2 : List (Event α)) (t : State), run Process.config d es2 = some t →
        t.forks = s.forks ∧ (∀ st, t.pc = PC.exited st → st = 0 ∧ t.numChildren ≤ 0) := by
  have hv : getValidInput r = false := by
    simp only [getValidInput, Bool.and_eq_false_imp, Bool.and_eq_true, beq_iff_eq,
      decide_eq_true_eq, decide_eq_false_iff_not, not_lt, ge_iff_le, gt_iff_lt]
    rintro ⟨⟨h1, h2⟩, h3⟩
    rcases hr with hr | hr | hr | hr
    · exact absurd h1 hr
    · exact absurd h2 (not_le.2 hr)
    · omega
    · exact hr
  have hd : drainInv s.forks { s with pc := PC.drainTest } := by
    simp [drainInv]
  refine ⟨{ s with pc := PC.drainTest }, ?_, rfl, ?_⟩
  · simp [step, hpc, hv]
  · intro es2 t ht
    have h1 := run_drainInv Process.config s.forks es2 _ t ht hd
    refine ⟨h1.1, ?_⟩
    intro st hst
    have h2 := h1.2
    rw [hst] at h2
    exact h2

theorem step_overcounted {α : Type} [LinearOrderedField α] (c : Config)
    (s t : State) (e : Event α) (h : step c s e = some t) (hI : overcounted s) :
    overcounted t := by
  obtain ⟨pc, n, hd, pd, r, z, f0⟩ := s
  obtain ⟨h1, h2, h3, h4, h5⟩ := hI
  simp only at h1 h2 h3 h4 h5
  subst h1 h2 h3 h4
  rcases h5 with h5 | h5 <;> subst h5 <;> cases e <;>
    simp [step, waitReturn] at h <;> subst h <;> simp [overcounted]

theorem run_overcounted {α : Type} [LinearOrderedField α] (c : Config)
    (es : List (Event α)) : ∀ (s t : State), run c s es = some t → overcounted s →
      overcounted t := by
  induction es with
  | nil =>
    intro s t h hI
    simp only [run, Option.some.injEq] at h
    exact h ▸ hI
  | cons e es ih =>
    intro s t h hI
    simp only [run] at h
    cases hs : step c s e with
    | none => simp [hs] at h
    | some u =>
      rw [hs] at h
      exact ih u t h (step_overcounted c s u e hs hI)

theorem overcounted_not_exited (s : State) (h : overcounted s) : isExited s = false := by
  obtain ⟨pc, n, hd, pd, r, z, f0⟩ := s
  rcases h.2.2.2.2 with h5 | h5 <;> simp only at h5 <;> subst h5 <;> rfl

/-- C6 (the parent does not always exit): in `process.c`, after two dispatches
whose children exit before the parent has run `sig_handler` for the first of
them, the two exits share one `SIGCHLD` and the handler runs once; an invalid
read then finds `numChildren = 1`; `wait(NULL)` collects both children, and the
parent is left at `while (numChildren > 0) wait(NULL);` with `numChildren = 1`
and no child: `wait` fails at once, the loop comes back to the same state, and
in no continuation does the parent reach `exit`. -/
theorem drain_spins_after_merged_sigchld :
    run Process.config init mergedExits = some spinning
    ∧ run Process.config spinning [(Event.stmt : Event ℚ), Event.stmt] = some spinning
    ∧ ∀ es : List (Event ℚ),
        ((run Process.config spinning es).map isExited).getD false = false := by
  refine ⟨by decide, by decide, ?_⟩
  intro es
  cases hrun : run Process.config spinning es with
  | none => rfl
  | some t =>
    have hI : overcounted spinning := by simp [overcounted, spinning]
    simpa using overcounted_not_exited t (run_overcounted Process.config es spinning t hrun hI)

/-! ## The strided loop on `size_t` -/

theorem foldl_trapBody {α : Type} [LinearOrderedField α] (func : α → α) (rangeStart dx : α)
    (l : List Nat) : ∀ acc : α,
      l.foldl (trapBody func rangeStart dx) acc
        = acc + (l.map (trapTerm func rangeStart dx)).sum := by
  induction l with
  | nil => intro acc; simp
  | cons i l ih =>
    intro acc
    rw [List.foldl_cons, ih, List.map_cons, List.sum_cons]
    simp only [trapBody, trapTerm]
    ring

/-- Without overflow (`numSteps + stride <= 2 ^ 64`) and with enough fuel, the
`size_t` loop visits exactly the indices of the loop read over the naturals. -/
theorem sizeLoop_eq_foldl {β : Type} (P : Nat) (hP : 0 < P) (numSteps : Nat)
    (body : β → Nat → β) (hfit : numSteps + P ≤ SIZE_MOD) :
    ∀ (fuel i : Nat) (acc : β), numSteps - i < fuel →
      sizeLoop P numSteps body fuel i acc
        = some ((stridedIndices P hP numSteps i).foldl body acc) := by
  intro fuel
  induction fuel with
  | zero => intro i acc h; omega
  | succ fuel ih =>
    intro i acc h
    rw [sizeLoop, stridedIndices]
    by_cases hi : i < numSteps
    · have hmod : (i + P) % SIZE_MOD = i + P := Nat.mod_eq_of_lt (by omega)
      simp only [hi, if_true, hmod, List.foldl_cons]
      exact ih (i + P) (body acc i) (by omega)
    · simp only [hi, if_false, List.foldl_nil]

theorem stridedIndices_one (numSteps : Nat) :
    ∀ (d i : Nat), numSteps - i = d →
      stridedIndices 1 Nat.one_pos numSteps i = List.range' i d := by
  intro d
  induction d with
  | zero =>
    intro i h
    rw [stridedIndices]
    have : ¬ i < numSteps := by omega
    simp [this]
  | succ d ih =>
    intro i h
    rw [stridedIndices]
    have : i < numSteps := by omega
    simp only [this, if_true, List.range'_succ]
    rw [ih (i + 1) (by omega)]

/-- The loop `for (size_t i = 0; i < numSteps; i++)` of `process.c` on `size_t`
terminates for every `numSteps < 2 ^ 64` and visits `0, ..., numSteps - 1` in order. -/
theorem sizeLoop_stride_one {β : Type} (numSteps : Nat) (body : β → Nat → β)
    (h : numSteps < SIZE_MOD) (acc : β) :
    sizeLoop 1 numSteps body (numSteps + 1) 0 acc
      = some ((List.range numSteps).foldl body acc) := by
  rw [sizeLoop_eq_foldl 1 Nat.one_pos numSteps body (by omega) (numSteps + 1) 0 acc (by omega),
    stridedIndices_one numSteps numSteps 0 rfl, List.range_eq_range']

/-- With `numSteps = 2 ^ 64 - 1` and stride 16 the index of worker 0 stays a
multiple of 16 below `2 ^ 64`, hence below `numSteps`: the loop never exits. -/
theorem sizeLoop_sixteen_diverges {β : Type} (body : β → Nat → β) :
    ∀ (fuel i : Nat) (acc : β), i % 16 = 0 → i < SIZE_MOD →
      sizeLoop 16 (SIZE_MOD - 1) body fuel i acc = none := by
  intro fuel
  induction fuel with
  | zero => intro i acc _ _; rfl
  | succ fuel ih =>
    intro i acc h1 h2
    simp only [SIZE_MOD] at h2
    have hi : i < SIZE_MOD - 1 := by simp only [SIZE_MOD]; omega
    rw [sizeLoop]
    simp only [hi, if_true]
    exact ih _ _ (by simp only [SIZE_MOD]; omega) (by simp only [SIZE_MOD]; omega)

/-- The same with stride 32. -/
theorem sizeLoop_thirtytwo_diverges {β : Type} (body : β → Nat → β) :
    ∀ (fuel i : Nat) (acc : β), i % 32 = 0 → i < SIZE_MOD →
      sizeLoop 32 (SIZE_MOD - 1) body fuel i acc = none := by
  intro fuel
  induction fuel with
  | zero => intro i acc _ _; rfl
  | succ fuel ih =>
    intro i acc h1 h2
    simp only [SIZE_MOD] at h2
    have hi : i < SIZE_MOD - 1 := by simp only [SIZE_MOD]; omega
    rw [sizeLoop]
    simp only [hi, if_true]
    exact ih _ _ (by simp only [SIZE_MOD]; omega) (by simp only [SIZE_MOD]; omega)

/-! ## The pool reducer -/

theorem reduce_none_of_diverges {α : Type} [LinearOrderedField α] (P : Nat) (m : Libm α)
    (rangeStart rangeEnd : α) (numSteps : Nat) (funcId : Fin NUM_FUNCS) (fuel k : Nat)
    (hk : Pool.integrateTrap P m ⟨rangeStart, rangeEnd, k, numSteps, funcId⟩ fuel = none)
    (before after : List Nat) :
    Pool.reduce P m rangeStart rangeEnd numSteps funcId (before ++ k :: after) fuel = none := by
  unfold Pool.reduce
  generalize (0 : α) = acc
  induction before generalizing acc with
  | nil => simp [List.foldlM_cons, hk]
  | cons j js ih =>
    simp only [List.cons_append, List.foldlM_cons]
    cases Pool.integrateTrap P m ⟨rangeStart, rangeEnd, j, numSteps, funcId⟩ fuel with
    | none => rfl
    | some area => exact ih _

theorem reduce_eq_sum {α : Type} [LinearOrderedField α] (P : Nat) (hP : 0 < P) (m : Libm α)
    (rangeStart rangeEnd : α) (numSteps : Nat) (funcId : Fin NUM_FUNCS)
    (hfit : numSteps + P ≤ SIZE_MOD) (fuel : Nat) (hfuel : numSteps < fuel)
    (order : List Nat) :
    Pool.reduce P m rangeStart rangeEnd numSteps funcId order fuel
      = some (((order.flatMap (fun k => stridedIndices P hP numSteps k)).map
          (trapTerm (FUNCS m funcId) rangeStart ((rangeEnd - rangeStart) / (numSteps : α)))).sum) := by
  unfold Pool.reduce
  have key : ∀ acc : α,
      order.foldlM
        (fun total k =>
          (Pool.integrateTrap P m ⟨rangeStart, rangeEnd, k, numSteps, funcId⟩ fuel).map
            (fun area => total + area)) acc
      = some (acc + ((order.flatMap (fun k => stridedIndices P hP numSteps k)).map
          (trapTerm (FUNCS m funcId) rangeStart
            ((rangeEnd - rangeStart) / (numSteps : α)))).sum) := by
    induction order with
    | nil => intro acc; simp
    | cons k ks ih =>
      intro acc
      have hk : Pool.integrateTrap P m ⟨rangeStart, rangeEnd, k, numSteps, funcId⟩ fuel
          = some (((stridedIndices P hP numSteps k).map
              (trapTerm (FUNCS m funcId) rangeStart
                ((rangeEnd - rangeStart) / (numSteps : α)))).sum) := by
        simp only [Pool.integrateTrap]
        rw [sizeLoop_eq_foldl P hP numSteps _ hfit fuel k 0 (by omega), foldl_trapBody, zero_add]
      rw [List.foldlM_cons, hk]
      simp only [Option.map_some', Option.some_bind, Option.bind_eq_bind]
      rw [ih, List.flatMap_cons, List.map_append, List.sum_append, add_assoc]
  rw [key 0, zero_add]

/-- Partition invariance where no index overflows: for a step count with
`numSteps + NUM_THREADS <= 2 ^ 64`, enough fuel and every completion order of
the workers `0, ..., NUM_THREADS - 1`, the pool reducer reports exactly the
value of the single-pass `integrateTrap` of `process.c`. -/
theorem reduce_eq_integrateTrap {α : Type} [LinearOrderedField α] (P : Nat) (hP : 0 < P)
    (m : Libm α) (rangeStart rangeEnd : α) (numSteps : Nat) (funcId : Fin NUM_FUNCS)
    (hfit : numSteps + P ≤ SIZE_MOD) (fuel : Nat) (hfuel : numSteps < fuel)
    (order : List Nat) (horder : order.Perm (List.range P)) :
    Pool.reduce P m rangeStart rangeEnd numSteps funcId order fuel
      = some (Process.integrateTrap (FUNCS m funcId) rangeStart rangeEnd numSteps) := by
  rw [reduce_eq_sum P hP m rangeStart rangeEnd numSteps funcId hfit fuel hfuel order]
  simp only [Process.integrateTrap]
  rw [foldl_trapBody, zero_add]
  congr 1
  apply List.Perm.sum_eq
  apply List.Perm.map
  exact (List.Perm.flatMap_right _ horder).trans (strided_flatMap_perm P hP numSteps)

/-- C10 (the loop does not always terminate): the request `0 1 18446744073709551615 0`
passes `getValidInput`, and for it the strided loop of worker 0, with `i`
computed modulo `2 ^ 64`, never exits, whatever the fuel: in `thread.c`
(stride 16) and in `processThread.c` (stride 32). -/
theorem strided_loop_diverges {α : Type} [LinearOrderedField α] (m : Libm α)
    (funcId : Fin NUM_FUNCS) (fuel : Nat) :
    getValidInput ({ numRead := 4, rangeStart := 0, rangeEnd := 1, numSteps := SIZE_MOD - 1,
                     funcId := 0 } : ScanResult α) = true
    ∧ Pool.integrateTrap Thread.NUM_THREADS m ⟨0, 1, 0, SIZE_MOD - 1, funcId⟩ fuel = none
    ∧ Pool.integrateTrap ProcessThread.NUM_THREADS m ⟨0, 1, 0, SIZE_MOD - 1, funcId⟩ fuel
        = none := by
  refine ⟨?_, ?_, ?_⟩
  · simp [getValidInput, SIZE_MOD]
  · exact sizeLoop_sixteen_diverges _ fuel 0 0 rfl (by simp [SIZE_MOD])
  · exact sizeLoop_thirtytwo_diverges _ fuel 0 0 rfl (by simp [SIZE_MOD])

/-- C2 (no total is reported): for the valid request `0 1 18446744073709551615 0`
the pool reducer of `thread.c` and of `processThread.c` never gets a total,
whatever the fuel and the completion order (worker 0 somewhere in it), while
the single-pass `integrateTrap` of `process.c` returns a value for it. -/
theorem reduce_reports_nothing {α : Type} [LinearOrderedField α] (m : Libm α)
    (funcId : Fin NUM_FUNCS) (fuel : Nat) (before after : List Nat) :
    Pool.reduce Thread.NUM_THREADS m 0 1 (SIZE_MOD - 1) funcId (before ++ 0 :: after) fuel
      = none
    ∧ Pool.reduce ProcessThread.NUM_THREADS m 0 1 (SIZE_MOD - 1) funcId
        (before ++ 0 :: after) fuel = none
    ∧ sizeLoop 1 (SIZE_MOD - 1) (trapBody (FUNCS m funcId) 0 ((1 - 0) / ((SIZE_MOD - 1 : Nat) : α)))
        (SIZE_MOD - 1 + 1) 0 0
      = some (Process.integrateTrap (FUNCS m funcId) 0 1 (SIZE_MOD - 1)) := by
  refine ⟨?_, ?_, ?_⟩
  · exact reduce_none_of_diverges _ m 0 1 _ funcId fuel 0
      (sizeLoop_sixteen_diverges _ fuel 0 0 rfl (by simp [SIZE_MOD])) before after
  · exact reduce_none_of_diverges _ m 0 1 _ funcId fuel 0
      (sizeLoop_thirtytwo_diverges _ fuel 0 0 rfl (by simp [SIZE_MOD])) before after
  · exact sizeLoop_stride_one _ _ (by simp [SIZE_MOD]) 0

/-! ## Worker creation in the pool reducer -/

/-- C8 (a creation failure is not noticed): for the valid request `0 1 16 0`,
when `pthread_create` fails for worker 0 and succeeds for the others, `main` of
`thread.c` and the child of `processThread.c` still write a result line for the
request and exit with status 0. -/
theorem pthread_create_failure_ignored {α : Type} [LinearOrderedField α] (m : Libm α)
    (extra : Nat) :
    (∃ line, Thread.main m (17 + extra)
        [({ numRead := 4, rangeStart := 0, rangeEnd := 1, numSteps := 16, funcId := 0 },
          fun k => decide (k ≠ 0))] = some (0, [line]))
    ∧ (∃ line, ProcessThread.child m 0 1 16 0 (fun k => decide (k ≠ 0)) (17 + extra)
        = some (0, [line])) := by
  constructor
  · simp only [Thread.main]
    rw [dif_pos (by simp [getValidInput])]
    simp only [Pool.calculate_total]
    rw [reduce_eq_sum Thread.NUM_THREADS (by decide) m 0 1 16 _ (by simp only [SIZE_MOD]; decide)
      (17 + extra) (by omega)]
    simp
  · simp only [ProcessThread.child, Pool.calculate_total]
    rw [reduce_eq_sum ProcessThread.NUM_THREADS (by decide) m 0 1 16 _ (by simp only [SIZE_MOD]; decide)
      (17 + extra) (by omega)]
    simp

/-! ## The sine scenario -/

theorem sin_pair (x h : ℝ) :
    (Real.sin x + Real.sin (x + 2 * h)) * Real.sin h
      = Real.cos h * (Real.cos x - Real.cos (x + 2 * h)) := by
  rw [Real.sin_add, Real.cos_add, Real.sin_two_mul, Real.cos_two_mul]
  linear_combination (2 * Real.cos x * Real.cos h) * Real.sin_sq_add_cos_sq h

/-- The trapezoid sum of the sine from 0 with step `2 * h`, in closed form. -/
theorem trap_sin_sum (h : ℝ) (n : Nat) :
    ((List.range n).map (trapTerm Real.sin 0 (2 * h))).sum * Real.sin h
      = h * Real.cos h * (1 - Real.cos ((n : ℝ) * (2 * h))) := by
  induction n with
  | zero => simp
  | succ n ih =>
    rw [List.range_succ, List.map_append, List.sum_append, add_mul, ih]
    simp only [List.map_cons, List.map_nil, List.sum_cons, List.sum_nil, add_zero, trapTerm,
      zero_add]
    have e : ((n + 1 : Nat) : ℝ) * (2 * h) = (n : ℝ) * (2 * h) + 2 * h := by
      push_cast; ring
    rw [e]
    have hp := sin_pair ((n : ℝ) * (2 * h)) h
    linear_combination h * hp

/-- C9: in exact real arithmetic, `integrateTrap` of `process.c` applied to
`FUNCS[0]` (the sine) with `rangeStart = 0`, `rangeEnd = π` and
`numSteps = 1000` returns a value at distance less than `1e-4` from 2. -/
theorem integrateTrap_sin_scenario :
    |Process.integrateTrap (FUNCS (⟨Real.sin, Real.exp, Real.sqrt, Real.pi⟩ : Libm ℝ) 0)
        0 Real.pi 1000 - 2| < 1 / 10000 := by
  have hf : FUNCS (⟨Real.sin, Real.exp, Real.sqrt, Real.pi⟩ : Libm ℝ) 0 = Real.sin := rfl
  rw [hf]
  simp only [Process.integrateTrap]
  rw [foldl_trapBody, zero_add]
  set h : ℝ := Real.pi / 2000 with hh
  have hdx : (Real.pi - 0) / ((1000 : Nat) : ℝ) = 2 * h := by
    rw [hh]; push_cast; ring
  rw [hdx]
  set S : ℝ := ((List.range 1000).map (trapTerm Real.sin 0 (2 * h))).sum with hS
  have hsum := trap_sin_sum h 1000
  rw [← hS] at hsum
  have hpi : ((1000 : Nat) : ℝ) * (2 * h) = Real.pi := by
    rw [hh]; push_cast; ring
  rw [hpi, Real.cos_pi] at hsum
  have h3 := Real.pi_gt_three
  have h4 := Real.pi_lt_four
  have hpos : 0 < h := by rw [hh]; linarith
  have hsmall : h < 2 / 1000 := by rw [hh]; linarith
  have hsinlt : Real.sin h < h := Real.sin_lt hpos
  have hsingt : h - h ^ 3 / 4 < Real.sin h := Real.sin_gt_sub_cube hpos (by linarith)
  have hcosge : 1 - h ^ 2 / 2 ≤ Real.cos h := Real.one_sub_sq_div_two_le_cos
  have hcosle : Real.cos h ≤ 1 := Real.cos_le_one h
  have hsinpos : 0 < Real.sin h := Real.sin_pos_of_pos_of_lt_pi hpos (by rw [hh]; linarith)
  have hsq : h ^ 2 < 4 / 1000000 := by nlinarith
  rw [abs_lt]
  constructor
  · -- lower bound
    have : (2 - 1 / 10000) * Real.sin h < S * Real.sin h := by
      rw [hsum]
      nlinarith
    have := lt_of_mul_lt_mul_right this hsinpos.le
    linarith
  · have : S * Real.sin h < (2 + 1 / 10000) * Real.sin h := by
      rw [hsum]
      nlinarith
    have := lt_of_mul_lt_mul_right this hsinpos.le
    linarith

/-! ## Iteration count of the strided loop -/

theorem stridedIndices_length (P : Nat) (hP : 0 < P) (numSteps : Nat) :
    ∀ (d i : Nat), numSteps - i ≤ d →
      (stridedIndices P hP numSteps i).length = (numSteps - i + P - 1) / P := by
  intro d
  induction d with
  | zero =>
    intro i h
    rw [stridedIndices]
    have hi : ¬ i < numSteps := by omega
    have h0 : numSteps - i + P - 1 = P - 1 := by omega
    simp only [hi, if_false, List.length_nil, h0]
    exact (Nat.div_eq_of_lt (by omega)).symm
  | succ d ih =>
    intro i h
    rw [stridedIndices]
    by_cases hi : i < numSteps
    · simp only [hi, if_true, List.length_cons]
      rw [ih (i + P) (by omega)]
      by_cases hx : P ≤ numSteps - i
      · have e1 : numSteps - i + P - 1 = (numSteps - (i + P) + P - 1) + P := by omega
        rw [e1, Nat.add_div_right _ hP]
      · have e1 : numSteps - (i + P) + P - 1 = P - 1 := by omega
        have e2 : numSteps - i + P - 1 = (numSteps - i - 1) + P := by omega
        rw [e1, e2, Nat.add_div_right _ hP, Nat.div_eq_of_lt (by omega),
          Nat.div_eq_of_lt (by omega)]
    · have h0 : numSteps - i + P - 1 = P - 1 := by omega
      simp only [hi, if_false, List.length_nil, h0]
      exact (Nat.div_eq_of_lt (by omega)).symm

/-- Where no index overflows (`numSteps + NUM_THREADS <= 2 ^ 64`), the strided
loop of worker `k` on `size_t` terminates, having run its body on
`ceil((numSteps - k) / NUM_THREADS)` indices (none when `k >= numSteps`). -/
theorem strided_loop_terminates_below {β : Type} (P : Nat) (hP : 0 < P) (numSteps k : Nat)
    (body : β → Nat → β) (acc : β) (hfit : numSteps + P ≤ SIZE_MOD) :
    sizeLoop P numSteps body (numSteps + 1) k acc
        = some ((stridedIndices P hP numSteps k).foldl body acc)
    ∧ (stridedIndices P hP numSteps k).length = (numSteps - k + P - 1) / P :=
  ⟨sizeLoop_eq_foldl P hP numSteps body hfit (numSteps + 1) k acc (by omega),
    stridedIndices_length P hP numSteps _ k le_rfl⟩

end Trapezoid
